import Mathlib

set_option maxRecDepth 8000

/-!
Shallow embedding of `src/run.py` (update_image_date_from_exif).

Python strings are modelled as `List Char` (ASCII fragment: the Unicode-only
behaviours of `str.strip`, `str.lower` and `int` — non-ASCII whitespace and
digits — are outside the model).  Machine-local time conversion
(`time.mktime`) is an explicit parameter of the resolver.  A Python call that
may raise an exception not caught inside the translated function is modelled
with `Except Unit`: `Except.error ()` is an exception propagating to the
caller.
-/

/-- Python string, modelled as a list of characters. -/
abbrev PyStr := List Char

/-- The ASCII whitespace characters stripped by `str.strip()` (and by `int`).
Space, tab, newline, carriage return, vertical tab, form feed. -/
def isPyWs (c : Char) : Bool :=
  c = ' ' || c = '\t' || c = '\n' || c = '\r' || c = Char.ofNat 11 || c = Char.ofNat 12

/-- The NUL character stripped by `.strip(chr(0))` in `parse_offset`. -/
def nulChar : Char := Char.ofNat 0

/-- Drop the characters satisfying `p` from the end of the list. -/
def stripEnd (p : Char → Bool) (l : PyStr) : PyStr :=
  (l.reverse.dropWhile p).reverse

/-- Drop the characters satisfying `p` from both ends (Python `str.strip`). -/
def stripBoth (p : Char → Bool) (l : PyStr) : PyStr :=
  stripEnd p (l.dropWhile p)

/-- Python `str.strip()` with no argument: trims whitespace at both ends. -/
def stripWs : PyStr → PyStr := stripBoth isPyWs

/-- Python `str.strip(chr(0))`: trims NUL characters at both ends only. -/
def stripNulls : PyStr → PyStr := stripBoth (fun c => c = nulChar)

/-- Python `str.split(sep)` for a one-character separator: always returns a
nonempty list; the empty string splits to one empty part. -/
def splitChar (sep : Char) : PyStr → List PyStr
  | [] => [[]]
  | c :: r =>
    if c = sep then [] :: splitChar sep r
    else
      match splitChar sep r with
      | [] => [[c]]
      | h :: t => (c :: h) :: t

/-- Numeric value of a decimal digit character. -/
def dv (c : Char) : Nat := c.toNat - 48

/-- Tail of Python decimal-literal recognition: digits with single
underscores allowed strictly between digits.  `pendingU` records that the
previous character was an underscore (which must be followed by a digit). -/
def digitsCore (acc : Nat) (pendingU : Bool) : List Char → Option Nat
  | [] => if pendingU then none else some acc
  | c :: r =>
    if c = '_' then (if pendingU then none else digitsCore acc true r)
    else if c.isDigit then digitsCore (acc * 10 + dv c) false r
    else none

/-- A nonempty digit run (Python int literal body): must start with a digit. -/
def digitsFirst : List Char → Option Nat
  | [] => none
  | c :: r => if c.isDigit then digitsCore (dv c) false r else none

/-- Sign handling of a Python int literal (after whitespace stripping). -/
def pyIntSigned (t : PyStr) : Option Int :=
  match t with
  | [] => (digitsFirst ([] : PyStr)).map (fun n => (n : Int))
  | c :: r =>
    if c = '+' then (digitsFirst r).map (fun n => (n : Int))
    else if c = '-' then (digitsFirst r).map (fun n => -(n : Int))
    else (digitsFirst (c :: r)).map (fun n => (n : Int))

/-- Python `int(s)` on a string: strips whitespace, takes one optional sign,
then a digit run with optional underscore grouping.  Returns `none` where
Python raises `ValueError` (caught at every call site in `run.py`). -/
def pyInt (s : PyStr) : Option Int :=
  pyIntSigned (stripWs s)

/-- Overflow condition of `datetime.timedelta(hours=.., minutes=..)`: the
normalized day count must lie in [-999999999, 999999999]; in seconds the
representable range is -86399999913600 ≤ total ≤ 86399999999999.  Outside it
Python raises `OverflowError`, which `parse_offset` does NOT catch. -/
def tdOverflow (total : Int) : Bool :=
  total < -86399999913600 || 86400000000000 ≤ total

/-- Hours and minutes extraction from the split parts (run.py lines 29-30):
`hours = int(parts[0])`, `minutes = int(parts[1]) if len(parts) > 1 else 0`. -/
def offsetFromParts (sign : Int) (parts : List PyStr) : Option (Int × Int × Int) :=
  match pyInt (parts.headD []) with
  | none => none
  | some h =>
    match (if 1 < parts.length then pyInt (parts.getD 1 []) else some 0) with
    | none => none
    | some m => some (sign, h, m)

/-- Sign and split handling of `parse_offset` on the stripped string
(run.py lines 24-30): the empty case is the second `return None`, and
`startswith` on a nonempty string inspects its first character. -/
def offsetComponentsStripped : PyStr → Option (Int × Int × Int)
  | [] => none
  | c :: r =>
    offsetFromParts (if c = '-' then -1 else 1)
      (splitChar ':' (if c = '+' || c = '-' then r else c :: r))

/-- The stripping / sign / split / int pipeline of `parse_offset`
(lines 18-30 of run.py).  `none` captures both the early `return None`s and a
caught `ValueError` from `int`; `some (sign, hours, minutes)` are the values
reaching line 32. -/
def offsetComponents (s : PyStr) : Option (Int × Int × Int) :=
  if s = [] then none
  else offsetComponentsStripped (stripNulls (stripWs s))

/-- `parse_offset` of run.py.  Result in seconds east of UTC:
`.ok none` is Python `None` (absent), `.ok (some z)` is
`datetime.timezone(timedelta(...))` with total offset `z` seconds, and
`.error ()` is an uncaught `OverflowError` from `timedelta` (only
`ValueError` and `IndexError` are caught).  `timezone` itself raises a caught
`ValueError` unless -86400 < total < 86400. -/
def parse_offset (s : PyStr) : Except Unit (Option Int) :=
  match offsetComponents s with
  | none => Except.ok none
  | some (sg, h, m) =>
    let total := sg * h * 3600 + sg * m * 60
    if tdOverflow total then Except.error ()
    else if total ≤ -86400 || 86400 ≤ total then Except.ok none
    else Except.ok (some total)

/-- A naive date-time as produced by `datetime.datetime.strptime`. -/
structure DateTime where
  year : Nat
  month : Nat
  day : Nat
  hour : Nat
  minute : Nat
  second : Nat
deriving DecidableEq, Repr

/-- CPython `_strptime` matcher for `%Y`: exactly four digits. -/
def matchY : List Char → Option (Nat × List Char)
  | a :: b :: c :: d :: r =>
    if a.isDigit && b.isDigit && c.isDigit && d.isDigit then
      some (dv a * 1000 + dv b * 100 + dv c * 10 + dv d, r)
    else none
  | _ => none

/-- CPython `_strptime` matcher for `%m`, alternatives in regex order:
`1[0-2] | 0[1-9] | [1-9]`.  Each candidate is (value, rest). -/
def matchM (l : List Char) : List (Nat × List Char) :=
  (match l with
   | a :: b :: r =>
     (if a = '1' && ('0' ≤ b && b ≤ '2') then [(10 + dv b, r)] else [])
     ++ (if a = '0' && ('1' ≤ b && b ≤ '9') then [(dv b, r)] else [])
   | _ => [])
  ++ (match l with
      | a :: r => if '1' ≤ a && a ≤ '9' then [(dv a, r)] else []
      | [] => [])

/-- CPython `_strptime` matcher for `%d`: `3[01] | [12][0-9] | 0[1-9] | [1-9]`. -/
def matchD (l : List Char) : List (Nat × List Char) :=
  (match l with
   | a :: b :: r =>
     (if a = '3' && (b = '0' || b = '1') then [(30 + dv b, r)] else [])
     ++ (if (a = '1' || a = '2') && b.isDigit then [(dv a * 10 + dv b, r)] else [])
     ++ (if a = '0' && ('1' ≤ b && b ≤ '9') then [(dv b, r)] else [])
   | _ => [])
  ++ (match l with
      | a :: r => if '1' ≤ a && a ≤ '9' then [(dv a, r)] else []
      | [] => [])

/-- CPython `_strptime` matcher for `%H`: `2[0-3] | [0-1][0-9] | [0-9]`. -/
def matchH (l : List Char) : List (Nat × List Char) :=
  (match l with
   | a :: b :: r =>
     (if a = '2' && ('0' ≤ b && b ≤ '3') then [(20 + dv b, r)] else [])
     ++ (if (a = '0' || a = '1') && b.isDigit then [(dv a * 10 + dv b, r)] else [])
   | _ => [])
  ++ (match l with
      | a :: r => if a.isDigit then [(dv a, r)] else []
      | [] => [])

/-- CPython `_strptime` matcher for `%M`: `[0-5][0-9] | [0-9]`. -/
def matchMin (l : List Char) : List (Nat × List Char) :=
  (match l with
   | a :: b :: r =>
     if ('0' ≤ a && a ≤ '5') && b.isDigit then [(dv a * 10 + dv b, r)] else []
   | _ => [])
  ++ (match l with
      | a :: r => if a.isDigit then [(dv a, r)] else []
      | [] => [])

/-- CPython `_strptime` matcher for `%S`: `6[0-1] | [0-5][0-9] | [0-9]`. -/
def matchS (l : List Char) : List (Nat × List Char) :=
  (match l with
   | a :: b :: r =>
     (if a = '6' && (b = '0' || b = '1') then [(60 + dv b, r)] else [])
     ++ (if ('0' ≤ a && a ≤ '5') && b.isDigit then [(dv a * 10 + dv b, r)] else [])
   | _ => [])
  ++ (match l with
      | a :: r => if a.isDigit then [(dv a, r)] else []
      | [] => [])

/-- Literal character in the strptime pattern. -/
def lit (c : Char) : List Char → Option (List Char)
  | [] => none
  | x :: r => if x = c then some r else none

/-- Regex-whitespace characters (`[ \t\n\r\f\v]`, ASCII fragment of `\s`):
a whitespace run in a strptime format string is compiled to `\s+`. -/
def isReWs (c : Char) : Bool :=
  c = ' ' || c = '\t' || c = '\n' || c = '\r' || c = Char.ofNat 11 || c = Char.ofNat 12

/-- The `\s+` the format's literal space compiles to: one or more whitespace
characters (maximal munch is exact here since the next token is a digit). -/
def wsPlus : List Char → Option (List Char)
  | [] => none
  | c :: r => if isReWs c then some (r.dropWhile isReWs) else none

/-- Try the candidate matches of one field in regex-alternative order, with
backtracking into the continuation. -/
def firstSome {α : Type} (cands : List (Nat × List Char)) (k : Nat → List Char → Option α) :
    Option α :=
  match cands with
  | [] => none
  | (v, r) :: tl =>
    match k v r with
    | some x => some x
    | none => firstSome tl k

/-- The regex match of `_strptime` for the pattern `%Y:%m:%d %H:%M:%S`:
produces the six fields and the unconsumed tail (the regex has no end
anchor; leftover input is rejected afterwards). -/
def strptimeRaw (s : List Char) : Option (DateTime × List Char) :=
  match matchY s with
  | none => none
  | some (y, r1) =>
    match lit ':' r1 with
    | none => none
    | some r2 =>
      firstSome (matchM r2) fun mo r3 =>
        match lit ':' r3 with
        | none => none
        | some r4 =>
          firstSome (matchD r4) fun d r5 =>
            match wsPlus r5 with
            | none => none
            | some r6 =>
              firstSome (matchH r6) fun h r7 =>
                match lit ':' r7 with
                | none => none
                | some r8 =>
                  firstSome (matchMin r8) fun mi r9 =>
                    match lit ':' r9 with
                    | none => none
                    | some r10 =>
                      firstSome (matchS r10) fun sec r11 =>
                        some (⟨y, mo, d, h, mi, sec⟩, r11)

/-- Gregorian leap year (as used by `datetime`). -/
def isLeap (y : Nat) : Bool :=
  (y % 4 = 0 && y % 100 ≠ 0) || y % 400 = 0

/-- Days in a month, validating `datetime.datetime`'s day range. -/
def daysInMonth (y m : Nat) : Nat :=
  if m = 2 then (if isLeap y then 29 else 28)
  else if m = 4 || m = 6 || m = 9 || m = 11 then 30
  else 31

/-- `datetime.datetime.strptime(s, "%Y:%m:%d %H:%M:%S")`, returning `none`
where Python raises a (caught) `ValueError`: regex mismatch, unconverted
trailing data, or constructor validation (year ≥ 1, day within month,
second ≤ 59 — the regex itself allows leap seconds 60/61). -/
def strptime (s : List Char) : Option DateTime :=
  match strptimeRaw s with
  | none => none
  | some (dt, rest) =>
    if rest = [] && 1 ≤ dt.year && dt.day ≤ daysInMonth dt.year dt.month && dt.second ≤ 59
    then some dt else none

/-- Days from 1970-01-01 of a Gregorian civil date (valid `datetime` fields,
year ≥ 1). -/
def daysFromCivil (y m d : Nat) : Int :=
  let y' := if m ≤ 2 then y - 1 else y
  let era := y' / 400
  let yoe := y' - era * 400
  let mp := (m + 9) % 12
  let doy := (153 * mp + 2) / 5 + d - 1
  let doe := yoe * 365 + yoe / 4 - yoe / 100 + doy
  (era : Int) * 146097 + (doe : Int) - 719468

/-- Seconds since the Unix epoch of a naive date-time read as UTC;
`dt.replace(tzinfo=timezone(z)).timestamp()` is `epochUTC dt - z`. -/
def epochUTC (dt : DateTime) : Int :=
  daysFromCivil dt.year dt.month dt.day * 86400
    + dt.hour * 3600 + dt.minute * 60 + dt.second

/-- The ExifTool tag map: lookup by tag name, values already converted with
`str` (the source applies `str(...)` to every value it reads). -/
abbrev Tags := String → Option PyStr

/-- Priority list of date fields (run.py lines 43-49). -/
def dateCandidates : List String :=
  ["EXIF:DateTimeOriginal", "EXIF:DateTimeDigitized",
   "QuickTime:CreationDate", "QuickTime:CreateDate"]

/-- Priority list of offset fields (run.py lines 52-56). -/
def offsetCandidates : List String :=
  ["EXIF:OffsetTimeOriginal", "EXIF:OffsetTimeDigitized", "EXIF:OffsetTime"]

/-- The date loop of run.py lines 62-66: the first key present in the map
supplies the (possibly empty) date string. -/
def scanDate : List String → Tags → Option PyStr
  | [], _ => none
  | k :: ks, tags =>
    match tags k with
    | some v => some v
    | none => scanDate ks tags

/-- The offset loop of run.py lines 73-76: each present key overwrites `tz`
with its parse result and the loop breaks only on a truthy (non-`None`)
result, so a present-but-unparseable value lets the scan continue; an
uncaught exception inside `parse_offset` propagates. -/
def scanOffset : List String → Tags → Except Unit (Option Int)
  | [], _ => Except.ok none
  | k :: ks, tags =>
    match tags k with
    | none => scanOffset ks tags
    | some v =>
      match parse_offset v with
      | Except.error e => Except.error e
      | Except.ok (some z) => Except.ok (some z)
      | Except.ok none => scanOffset ks tags

/-- `get_timestamp_from_metadata` of run.py.  `mktime` abstracts
`time.mktime(dt.timetuple())`, the machine-local interpretation of a naive
date-time.  `.ok none` is Python `None`; `.ok (some t)` a float timestamp of
whole seconds; `.error ()` an exception escaping the function (its `try`
catches only `ValueError`). -/
def get_timestamp_from_metadata (mktime : DateTime → Int) (tags : Tags) :
    Except Unit (Option Int) :=
  match scanDate dateCandidates tags with
  | none => Except.ok none
  | some ds =>
    if ds = [] then Except.ok none
    else
      match scanOffset offsetCandidates tags with
      | Except.error e => Except.error e
      | Except.ok tzd =>
        match strptime (List.take 19 ds) with
        | none => Except.ok none
        | some dt =>
          match tzd with
          | some z => Except.ok (some (epochUTC dt - z))
          | none =>
            if 19 < ds.length then
              match parse_offset (List.drop 19 ds) with
              | Except.error e => Except.error e
              | Except.ok (some z) => Except.ok (some (epochUTC dt - z))
              | Except.ok none => Except.ok (some (mktime dt))
            else Except.ok (some (mktime dt))

/-- Environment of one file job: whether `shutil.copy2` succeeds, what
`et.get_metadata` yields (`.error` = raised, `.ok none` = empty list,
`.ok (some tags)` = first element), and whether `set_macos_creation_time`
raises one of the exceptions it does not catch itself. -/
structure FileEnv where
  copyOk : Bool
  metadata : Except Unit (Option Tags)
  setTime : Except Unit Unit

/-- Printed outcome of one file in `process_images`. -/
inductive Outcome
  | dateUpdated
  | noValidDates
  | noMetadata
  | errorCaught
deriving DecidableEq, Repr

/-- Result of one loop iteration: the printed outcome and whether
`set_macos_creation_time` was invoked. -/
structure StepResult where
  outcome : Outcome
  setterCalled : Bool
deriving DecidableEq, Repr

/-- One iteration of the loop in `process_images` (run.py lines 144-173).
`shutil.copy2` runs before the `try`, so its exception propagates
(`.error ()`); everything after it is inside `try ... except Exception`.
`if timestamp:` is Python float truthiness: `None` and `0.0` both fall to
the no-valid-dates branch. -/
def processOne (mktime : DateTime → Int) (env : FileEnv) : Except Unit StepResult :=
  if env.copyOk then
    Except.ok
      (match env.metadata with
       | Except.error _ => ⟨Outcome.errorCaught, false⟩
       | Except.ok none => ⟨Outcome.noMetadata, false⟩
       | Except.ok (some tags) =>
         match get_timestamp_from_metadata mktime tags with
         | Except.error _ => ⟨Outcome.errorCaught, false⟩
         | Except.ok none => ⟨Outcome.noValidDates, false⟩
         | Except.ok (some t) =>
           if t = 0 then ⟨Outcome.noValidDates, false⟩
           else
             match env.setTime with
             | Except.ok _ => ⟨Outcome.dateUpdated, true⟩
             | Except.error _ => ⟨Outcome.errorCaught, true⟩)
  else Except.error ()

/-- The whole batch loop: an uncaught per-file exception aborts the batch
(no later file is processed); otherwise one `StepResult` per file. -/
def processBatch (mktime : DateTime → Int) : List FileEnv → Except Unit (List StepResult)
  | [] => Except.ok []
  | e :: es =>
    match processOne mktime e with
    | Except.error u => Except.error u
    | Except.ok r =>
      match processBatch mktime es with
      | Except.error u => Except.error u
      | Except.ok rs => Except.ok (r :: rs)

/-- An immediate entry of the input directory as seen by `iterdir`:
its final name and whether it is a regular file. -/
structure DirEntry where
  name : PyStr
  isFile : Bool
deriving DecidableEq, Repr

/-- `INPUT_EXTENSIONS` of run.py line 11 (a set; only membership is used). -/
def INPUT_EXTENSIONS : List PyStr :=
  [".jpg".toList, ".jpeg".toList, ".cr3".toList, ".hif".toList, ".heic".toList]

/-- `pathlib.PurePath.suffix`: the part of the name from the last dot on,
empty when the only dot is leading (hidden files) or trailing. -/
def pathSuffix (name : PyStr) : PyStr :=
  match List.findIdx? (fun c => c = '.') name.reverse with
  | none => []
  | some j =>
    if 0 < j && j < name.length - 1 then List.drop (name.length - 1 - j) name
    else []

/-- Python `str.lower()` (ASCII fragment). -/
def pyLower (s : PyStr) : PyStr :=
  s.map (fun c => if 'A' ≤ c && c ≤ 'Z' then Char.ofNat (c.toNat + 32) else c)

/-- The filter of run.py line 137: regular file with a recognised
extension, compared case-insensitively. -/
def includeFile (e : DirEntry) : Bool :=
  e.isFile && decide (pyLower (pathSuffix e.name) ∈ INPUT_EXTENSIONS)

/-- The file-gathering loop of run.py lines 135-138 over the immediate
directory entries (no recursion: `iterdir` lists one level). -/
def filesToProcess (entries : List DirEntry) : List DirEntry :=
  entries.filter includeFile

/-- Characters contributed by an optional sign. -/
def sgnChars : Option Char → PyStr
  | none => []
  | some c => [c]

/-- Characters contributed by an optional minutes component. -/
def msTail : Option PyStr → PyStr
  | none => []
  | some m => ':' :: m

/-- A well-formed offset string in the sense of the spec: optional sign,
integer hours, optional colon-separated integer minutes. -/
def mkOffsetStr (sgn : Option Char) (hs : PyStr) (ms : Option PyStr) : PyStr :=
  sgnChars sgn ++ hs ++ msTail ms

/-- Sign denoted by the optional sign character (positive by default). -/
def sgnVal (sgn : Option Char) : Int :=
  if sgn = some '-' then -1 else 1

/-- Value of a plain decimal digit string. -/
def digitsVal (l : PyStr) : Nat :=
  l.foldl (fun a c => a * 10 + dv c) 0

/-- Minutes value of the optional minutes component (0 when absent). -/
def msVal : Option PyStr → Nat
  | none => 0
  | some m => digitsVal m

/-- Example tag map: a date string carrying an embedded trailing offset and
no dedicated offset field. -/
def exTagsEmbedded : Tags := fun k =>
  if k = "EXIF:DateTimeOriginal" then some "2023:05:01 10:15:30+09:00".toList else none

/-- Example tag map: both the original and the digitized date present. -/
def exTagsBothDates : Tags := fun k =>
  if k = "EXIF:DateTimeOriginal" then some "2023:05:01 10:15:30".toList
  else if k = "EXIF:DateTimeDigitized" then some "2001:01:01 01:01:01".toList
  else none

/-- Example tag map: a 17-character date string with one-digit month and day. -/
def exTagsShort : Tags := fun k =>
  if k = "EXIF:DateTimeOriginal" then some "2023:5:1 10:15:30".toList else none

/-- Example tag map: an unparseable date string. -/
def exTagsBadDate : Tags := fun k =>
  if k = "EXIF:DateTimeOriginal" then some "not-a-date".toList else none

/-- Example tag map: first offset key unparseable, second parseable. -/
def exTagsOffsets : Tags := fun k =>
  if k = "EXIF:OffsetTimeOriginal" then some "abc".toList
  else if k = "EXIF:OffsetTimeDigitized" then some "+05:00".toList
  else none

/-- Example tag map resolving exactly to the Unix epoch. -/
def exTagsEpoch : Tags := fun k =>
  if k = "EXIF:DateTimeOriginal" then some "1970:01:01 00:00:00".toList
  else if k = "EXIF:OffsetTimeOriginal" then some "+00:00".toList
  else none

/-- Example file job resolving to the epoch timestamp. -/
def exEnvEpoch : FileEnv := ⟨true, Except.ok (some exTagsEpoch), Except.ok ()⟩

/-- Example file job whose copy step raises. -/
def exEnvBadCopy : FileEnv := ⟨false, Except.ok none, Except.ok ()⟩

/-- Example file job whose metadata read raises (caught by the orchestrator). -/
def exEnvMetaRaise : FileEnv := ⟨true, Except.error (), Except.ok ()⟩

theorem dropWhile_of_all_false (p : Char → Bool) (l : List Char)
    (h : ∀ c ∈ l, p c = false) : l.dropWhile p = l := by
  cases l with
  | nil => rfl
  | cons c r =>
    rw [List.dropWhile_cons, h c (List.mem_cons_self c r)]
    simp

theorem stripEnd_of_all_false (p : Char → Bool) (l : List Char)
    (h : ∀ c ∈ l, p c = false) : stripEnd p l = l := by
  unfold stripEnd
  rw [dropWhile_of_all_false p l.reverse (fun c hc => h c (List.mem_reverse.mp hc))]
  exact List.reverse_reverse l

theorem stripBoth_of_all_false (p : Char → Bool) (l : List Char)
    (h : ∀ c ∈ l, p c = false) : stripBoth p l = l := by
  unfold stripBoth
  rw [dropWhile_of_all_false p l h]
  exact stripEnd_of_all_false p l h

theorem dropWhile_append_last (p : Char → Bool) (x : List Char) (c : Char) (q : List Char)
    (hc : p c = false) : (x ++ c :: q).dropWhile p = x.dropWhile p ++ c :: q := by
  induction x with
  | nil =>
    simp only [List.nil_append, List.dropWhile_nil]
    rw [List.dropWhile_cons, hc]
    simp
  | cons a x ih =>
    simp only [List.cons_append, List.dropWhile_cons]
    cases hpa : p a with
    | true => simpa using ih
    | false => simp

theorem stripEnd_append_last (p : Char → Bool) (a : List Char) (c : Char) (rest : List Char)
    (hc : p c = false) : stripEnd p ((a ++ [c]) ++ rest) = (a ++ [c]) ++ stripEnd p rest := by
  unfold stripEnd
  have h1 : ((a ++ [c]) ++ rest).reverse = rest.reverse ++ c :: a.reverse := by
    simp [List.reverse_append]
  rw [h1, dropWhile_append_last p rest.reverse c a.reverse hc]
  simp [List.reverse_append]

theorem stripBoth_append_shape (p : Char → Bool) (c : Char) (y : List Char) (d : Char)
    (rest : List Char) (hc : p c = false) (hd : p d = false) :
    stripBoth p ((c :: y ++ [d]) ++ rest) = (c :: y ++ [d]) ++ stripEnd p rest := by
  unfold stripBoth
  have h1 : ((c :: y ++ [d]) ++ rest).dropWhile p = (c :: y ++ [d]) ++ rest := by
    rw [List.cons_append, List.cons_append, List.dropWhile_cons, hc]
    simp
  rw [h1]
  exact stripEnd_append_last p (c :: y) d rest hd

theorem splitChar_ne_nil (sep : Char) (l : PyStr) : splitChar sep l ≠ [] := by
  cases l with
  | nil => simp [splitChar]
  | cons c r =>
    rw [splitChar]
    by_cases hcs : c = sep
    · simp [hcs]
    · rw [if_neg hcs]
      rcases h : splitChar sep r with _ | ⟨h1, t1⟩ <;> simp

theorem splitChar_of_not_mem (sep : Char) (l : PyStr) (h : sep ∉ l) :
    splitChar sep l = [l] := by
  induction l with
  | nil => rfl
  | cons c r ih =>
    have hcs : ¬ (c = sep) := fun hc => h (by rw [← hc]; exact List.mem_cons_self c r)
    rw [splitChar, if_neg hcs, ih (fun hr => h (List.mem_cons_of_mem c hr))]

theorem splitChar_append_sep (sep : Char) (a b : PyStr) (h : sep ∉ a) :
    splitChar sep (a ++ sep :: b) = a :: splitChar sep b := by
  induction a with
  | nil => simp [splitChar]
  | cons c r ih =>
    have hcs : ¬ (c = sep) := fun hc => h (by rw [← hc]; exact List.mem_cons_self c r)
    rw [List.cons_append, splitChar, if_neg hcs,
      ih (fun hr => h (List.mem_cons_of_mem c hr))]

theorem digitsCore_all_digits (l : List Char) (acc : Nat)
    (h : ∀ c ∈ l, c.isDigit = true) :
    digitsCore acc false l = some (l.foldl (fun a c => a * 10 + dv c) acc) := by
  induction l generalizing acc with
  | nil => rfl
  | cons c r ih =>
    have hc : c.isDigit = true := h c (List.mem_cons_self c r)
    have hcu : ¬ (c = '_') := by
      intro he
      rw [he] at hc
      exact absurd hc (by decide)
    rw [digitsCore, if_neg hcu, if_pos hc, List.foldl_cons]
    exact ih (acc * 10 + dv c) (fun x hx => h x (List.mem_cons_of_mem c hx))

theorem digitsFirst_all_digits (l : List Char) (hne : l ≠ [])
    (h : ∀ c ∈ l, c.isDigit = true) : digitsFirst l = some (digitsVal l) := by
  cases l with
  | nil => exact absurd rfl hne
  | cons c r =>
    rw [digitsFirst, h c (List.mem_cons_self c r)]
    simp only [if_true]
    rw [digitsCore_all_digits r (dv c) (fun x hx => h x (List.mem_cons_of_mem c hx))]
    congr 1
    have hz : (0 : Nat) * 10 + dv c = dv c := by omega
    rw [digitsVal, List.foldl_cons, hz]

theorem digit_not_ws (c : Char) (h : c.isDigit = true) : isPyWs c = false := by
  cases hb : isPyWs c with
  | false => rfl
  | true =>
    exfalso
    simp only [isPyWs, Bool.or_eq_true, decide_eq_true_eq] at hb
    rcases hb with ((((hb | hb) | hb) | hb) | hb) | hb <;> rw [hb] at h <;>
      exact absurd h (by decide)

theorem digit_ne_nul (c : Char) (h : c.isDigit = true) : ¬ (c = nulChar) := by
  intro he
  rw [he] at h
  exact absurd h (by decide)

theorem digit_ne_colon (c : Char) (h : c.isDigit = true) : ¬ (c = ':') := by
  intro he
  rw [he] at h
  exact absurd h (by decide)

theorem digit_ne_plus (c : Char) (h : c.isDigit = true) : ¬ (c = '+') := by
  intro he
  rw [he] at h
  exact absurd h (by decide)

theorem digit_ne_minus (c : Char) (h : c.isDigit = true) : ¬ (c = '-') := by
  intro he
  rw [he] at h
  exact absurd h (by decide)

theorem colon_not_mem_digits (l : PyStr) (h : ∀ c ∈ l, c.isDigit = true) : ':' ∉ l :=
  fun hm => digit_ne_colon ':' (h ':' hm) rfl

theorem pyInt_digits (l : PyStr) (hne : l ≠ []) (h : ∀ c ∈ l, c.isDigit = true) :
    pyInt l = some ((digitsVal l : Int)) := by
  unfold pyInt
  rw [show stripWs l = l from stripBoth_of_all_false isPyWs l
    (fun c hc => digit_not_ws c (h c hc))]
  cases l with
  | nil => exact absurd rfl hne
  | cons c r =>
    have hc : c.isDigit = true := h c (List.mem_cons_self c r)
    rw [pyIntSigned, if_neg (digit_ne_plus c hc), if_neg (digit_ne_minus c hc)]
    rw [digitsFirst_all_digits (c :: r) hne h]
    rfl

theorem strip2_shape (c : Char) (y : PyStr) (d : Char) (rest : PyStr)
    (hc1 : isPyWs c = false) (hc2 : (decide (c = nulChar) : Bool) = false)
    (hd1 : isPyWs d = false) (hd2 : (decide (d = nulChar) : Bool) = false) :
    stripNulls (stripWs ((c :: y ++ [d]) ++ rest)) =
      (c :: y ++ [d]) ++ stripEnd (fun x => x = nulChar) (stripEnd isPyWs rest) := by
  unfold stripWs stripNulls
  rw [stripBoth_append_shape isPyWs c y d rest hc1 hd1]
  exact stripBoth_append_shape (fun x => x = nulChar) c y d (stripEnd isPyWs rest) hc2 hd2

theorem offsetComponentsStripped_digit (c : Char) (t : PyStr) (hc : c.isDigit = true) :
    offsetComponentsStripped (c :: t) = offsetFromParts 1 (splitChar ':' (c :: t)) := by
  rw [offsetComponentsStripped, if_neg (digit_ne_minus c hc),
    decide_eq_false (digit_ne_plus c hc), decide_eq_false (digit_ne_minus c hc)]
  simp

theorem offsetComponentsStripped_plus (body : PyStr) :
    offsetComponentsStripped ('+' :: body) = offsetFromParts 1 (splitChar ':' body) := by
  rw [offsetComponentsStripped]
  simp

theorem offsetComponentsStripped_minus (body : PyStr) :
    offsetComponentsStripped ('-' :: body) = offsetFromParts (-1) (splitChar ':' body) := by
  rw [offsetComponentsStripped]
  simp

theorem offsetFromParts_digits (sg : Int) (hs : PyStr) (ms : Option PyStr)
    (hhs : hs ≠ []) (hdh : ∀ c ∈ hs, c.isDigit = true)
    (hms : ∀ m, ms = some m → m ≠ [] ∧ ∀ c ∈ m, c.isDigit = true) :
    offsetFromParts sg (splitChar ':' (hs ++ msTail ms))
      = some (sg, (digitsVal hs : Int), (msVal ms : Int)) := by
  cases ms with
  | none =>
    rw [show msTail none = [] from rfl, List.append_nil,
      splitChar_of_not_mem ':' hs (colon_not_mem_digits hs hdh)]
    rw [offsetFromParts, List.headD_cons, pyInt_digits hs hhs hdh]
    norm_num [msVal]
  | some m =>
    obtain ⟨hm1, hm2⟩ := hms m rfl
    rw [show msTail (some m) = ':' :: m from rfl,
      splitChar_append_sep ':' hs m (colon_not_mem_digits hs hdh),
      splitChar_of_not_mem ':' m (colon_not_mem_digits m hm2)]
    rw [offsetFromParts, List.headD_cons, pyInt_digits hs hhs hdh]
    have hlen : 1 < ([hs, m] : List PyStr).length := by simp
    rw [if_pos hlen]
    have hget : ([hs, m] : List PyStr).getD 1 [] = m := rfl
    rw [hget, pyInt_digits m hm1 hm2]
    rfl

theorem offsetFromParts_extra (sg : Int) (hs m rest : PyStr)
    (hhs : hs ≠ []) (hdh : ∀ c ∈ hs, c.isDigit = true)
    (hm1 : m ≠ []) (hm2 : ∀ c ∈ m, c.isDigit = true) :
    offsetFromParts sg (splitChar ':' (hs ++ ':' :: (m ++ ':' :: rest)))
      = some (sg, (digitsVal hs : Int), (digitsVal m : Int)) := by
  rw [splitChar_append_sep ':' hs (m ++ ':' :: rest) (colon_not_mem_digits hs hdh),
    splitChar_append_sep ':' m rest (colon_not_mem_digits m hm2)]
  rw [offsetFromParts, List.headD_cons, pyInt_digits hs hhs hdh]
  have hlen : 1 < (hs :: m :: splitChar ':' rest).length := by
    simp [List.length_cons]
  rw [if_pos hlen]
  have hget : (hs :: m :: splitChar ':' rest).getD 1 [] = m := rfl
  rw [hget, pyInt_digits m hm1 hm2]

theorem mk_chars_ok (sgn : Option Char) (hs : PyStr) (ms : Option PyStr)
    (hsgn : sgn = none ∨ sgn = some '+' ∨ sgn = some '-')
    (hdh : ∀ c ∈ hs, c.isDigit = true)
    (hms : ∀ m, ms = some m → ∀ c ∈ m, c.isDigit = true) :
    ∀ c ∈ mkOffsetStr sgn hs ms,
      isPyWs c = false ∧ (decide (c = nulChar) : Bool) = false := by
  intro c hc
  unfold mkOffsetStr at hc
  rw [List.mem_append] at hc
  rcases hc with hc | hc
  · rw [List.mem_append] at hc
    rcases hc with hc | hc
    · rcases hsgn with h | h | h <;> subst h
      · exact absurd hc (List.not_mem_nil c)
      · have he : c = '+' := List.mem_singleton.mp hc
        subst he
        exact ⟨by decide, by decide⟩
      · have he : c = '-' := List.mem_singleton.mp hc
        subst he
        exact ⟨by decide, by decide⟩
    · exact ⟨digit_not_ws c (hdh c hc), decide_eq_false (digit_ne_nul c (hdh c hc))⟩
  · cases ms with
    | none => exact absurd hc (List.not_mem_nil c)
    | some m =>
      rcases List.mem_cons.mp hc with h | h
      · subst h
        exact ⟨by decide, by decide⟩
      · exact ⟨digit_not_ws c (hms m rfl c h),
          decide_eq_false (digit_ne_nul c (hms m rfl c h))⟩

theorem offsetComponents_wellformed (sgn : Option Char) (hs : PyStr) (ms : Option PyStr)
    (hsgn : sgn = none ∨ sgn = some '+' ∨ sgn = some '-')
    (hhs : hs ≠ []) (hdh : ∀ c ∈ hs, c.isDigit = true)
    (hms : ∀ m, ms = some m → m ≠ [] ∧ ∀ c ∈ m, c.isDigit = true) :
    offsetComponents (mkOffsetStr sgn hs ms) =
      some (sgnVal sgn, (digitsVal hs : Int), (msVal ms : Int)) := by
  have hchars := mk_chars_ok sgn hs ms hsgn hdh (fun m hm => (hms m hm).2)
  have hne : mkOffsetStr sgn hs ms ≠ [] := by
    unfold mkOffsetStr
    intro he
    rcases List.append_eq_nil.mp he with ⟨h1, _⟩
    exact hhs (List.append_eq_nil.mp h1).2
  unfold offsetComponents
  rw [if_neg hne]
  rw [show stripWs (mkOffsetStr sgn hs ms) = mkOffsetStr sgn hs ms from
    stripBoth_of_all_false _ _ (fun c hc => (hchars c hc).1)]
  rw [show stripNulls (mkOffsetStr sgn hs ms) = mkOffsetStr sgn hs ms from
    stripBoth_of_all_false _ _ (fun c hc => (hchars c hc).2)]
  obtain ⟨b0, t, rfl⟩ : ∃ b0 t, hs = b0 :: t := by
    cases hs with
    | nil => exact absurd rfl hhs
    | cons a b => exact ⟨a, b, rfl⟩
  have hb0 : b0.isDigit = true := hdh b0 (List.mem_cons_self b0 t)
  rcases hsgn with h | h | h <;> subst h
  · rw [show mkOffsetStr none (b0 :: t) ms = b0 :: (t ++ msTail ms) from by
      simp [mkOffsetStr, sgnChars]]
    rw [offsetComponentsStripped_digit b0 _ hb0]
    exact offsetFromParts_digits 1 (b0 :: t) ms hhs hdh hms
  · rw [show mkOffsetStr (some '+') (b0 :: t) ms = '+' :: ((b0 :: t) ++ msTail ms) from by
      simp [mkOffsetStr, sgnChars]]
    rw [offsetComponentsStripped_plus]
    exact offsetFromParts_digits 1 (b0 :: t) ms hhs hdh hms
  · rw [show mkOffsetStr (some '-') (b0 :: t) ms = '-' :: ((b0 :: t) ++ msTail ms) from by
      simp [mkOffsetStr, sgnChars]]
    rw [offsetComponentsStripped_minus]
    exact offsetFromParts_digits (-1) (b0 :: t) ms hhs hdh hms

theorem offsetComponents_extra (sgn : Option Char) (hs m rest : PyStr)
    (hsgn : sgn = none ∨ sgn = some '+' ∨ sgn = some '-')
    (hhs : hs ≠ []) (hdh : ∀ c ∈ hs, c.isDigit = true)
    (hm1 : m ≠ []) (hm2 : ∀ c ∈ m, c.isDigit = true) :
    offsetComponents (mkOffsetStr sgn hs (some (m ++ ':' :: rest))) =
      some (sgnVal sgn, (digitsVal hs : Int), (digitsVal m : Int)) := by
  obtain ⟨b0, t, rfl⟩ : ∃ b0 t, hs = b0 :: t := by
    cases hs with
    | nil => exact absurd rfl hhs
    | cons a b => exact ⟨a, b, rfl⟩
  have hb0 : b0.isDigit = true := hdh b0 (List.mem_cons_self b0 t)
  rcases hsgn with h | h | h <;> subst h
  · rw [show mkOffsetStr none (b0 :: t) (some (m ++ ':' :: rest))
        = ((b0 :: (t ++ ':' :: m)) ++ [':']) ++ rest from by
      simp [mkOffsetStr, sgnChars, msTail]]
    unfold offsetComponents
    rw [if_neg (by simp)]
    rw [strip2_shape b0 (t ++ ':' :: m) ':' rest (digit_not_ws b0 hb0)
      (decide_eq_false (digit_ne_nul b0 hb0)) (by decide) (by decide)]
    simp only [List.cons_append]
    rw [offsetComponentsStripped_digit b0 _ hb0]
    have hres := offsetFromParts_extra 1 (b0 :: t) m
      (stripEnd (fun x => x = nulChar) (stripEnd isPyWs rest)) hhs hdh hm1 hm2
    simp only [List.cons_append, List.append_assoc, List.singleton_append] at hres ⊢
    exact hres
  · rw [show mkOffsetStr (some '+') (b0 :: t) (some (m ++ ':' :: rest))
        = (('+' :: ((b0 :: t) ++ ':' :: m)) ++ [':']) ++ rest from by
      simp [mkOffsetStr, sgnChars, msTail]]
    unfold offsetComponents
    rw [if_neg (by simp)]
    rw [strip2_shape '+' ((b0 :: t) ++ ':' :: m) ':' rest (by decide) (by decide)
      (by decide) (by decide)]
    simp only [List.cons_append]
    rw [offsetComponentsStripped_plus]
    have hres := offsetFromParts_extra 1 (b0 :: t) m
      (stripEnd (fun x => x = nulChar) (stripEnd isPyWs rest)) hhs hdh hm1 hm2
    simp only [List.cons_append, List.append_assoc, List.singleton_append] at hres ⊢
    exact hres
  · rw [show mkOffsetStr (some '-') (b0 :: t) (some (m ++ ':' :: rest))
        = (('-' :: ((b0 :: t) ++ ':' :: m)) ++ [':']) ++ rest from by
      simp [mkOffsetStr, sgnChars, msTail]]
    unfold offsetComponents
    rw [if_neg (by simp)]
    rw [strip2_shape '-' ((b0 :: t) ++ ':' :: m) ':' rest (by decide) (by decide)
      (by decide) (by decide)]
    simp only [List.cons_append]
    rw [offsetComponentsStripped_minus]
    have hres := offsetFromParts_extra (-1) (b0 :: t) m
      (stripEnd (fun x => x = nulChar) (stripEnd isPyWs rest)) hhs hdh hm1 hm2
    simp only [List.cons_append, List.append_assoc, List.singleton_append] at hres ⊢
    exact hres

theorem scanDate_cons (k : String) (ks : List String) (tags : Tags) :
    scanDate (k :: ks) tags =
      (match tags k with
       | some v => some v
       | none => scanDate ks tags) := rfl

theorem scanOffset_cons (k : String) (ks : List String) (tags : Tags) :
    scanOffset (k :: ks) tags =
      (match tags k with
       | none => scanOffset ks tags
       | some v =>
         match parse_offset v with
         | Except.error e => Except.error e
         | Except.ok (some z) => Except.ok (some z)
         | Except.ok none => scanOffset ks tags) := rfl

theorem scanDate_none (l : List String) (tags : Tags) (h : ∀ k ∈ l, tags k = none) :
    scanDate l tags = none := by
  induction l with
  | nil => rfl
  | cons k0 ks ih =>
    simp only [scanDate_cons, h k0 (List.mem_cons_self k0 ks)]
    exact ih (fun x hx => h x (List.mem_cons_of_mem k0 hx))

theorem scanDate_eq_some_iff (l : List String) (tags : Tags) (ds : PyStr) :
    scanDate l tags = some ds ↔
      ∃ l1 k l2, l = l1 ++ k :: l2 ∧ (∀ x ∈ l1, tags x = none) ∧ tags k = some ds := by
  induction l with
  | nil =>
    constructor
    · intro h
      exact absurd h (by simp [scanDate])
    · rintro ⟨l1, k, l2, hl, -, -⟩
      cases l1 with
      | nil => simp at hl
      | cons a l1 => simp at hl
  | cons k0 ks ih =>
    cases htk : tags k0 with
    | some v =>
      simp only [scanDate_cons, htk]
      constructor
      · intro h
        exact ⟨[], k0, ks, rfl, fun x hx => absurd hx (List.not_mem_nil x), htk.trans h⟩
      · rintro ⟨l1, k, l2, hl, hnone, hk⟩
        cases l1 with
        | nil =>
          rw [List.nil_append] at hl
          injection hl with h1 h2
          rw [← h1, htk] at hk
          exact hk
        | cons a l1 =>
          rw [List.cons_append] at hl
          injection hl with h1 h2
          have hn := hnone k0 (h1 ▸ List.mem_cons_self a l1)
          rw [htk] at hn
          cases hn
    | none =>
      simp only [scanDate_cons, htk]
      rw [ih]
      constructor
      · rintro ⟨l1, k, l2, hl, hnone, hk⟩
        refine ⟨k0 :: l1, k, l2, by rw [List.cons_append, hl], ?_, hk⟩
        intro x hx
        rcases List.mem_cons.mp hx with h | h
        · rw [h]
          exact htk
        · exact hnone x h
      · rintro ⟨l1, k, l2, hl, hnone, hk⟩
        cases l1 with
        | nil =>
          rw [List.nil_append] at hl
          injection hl with h1 h2
          rw [← h1, htk] at hk
          cases hk
        | cons a l1 =>
          rw [List.cons_append] at hl
          injection hl with h1 h2
          exact ⟨l1, k, l2, h2, fun x hx => hnone x (List.mem_cons_of_mem a hx), hk⟩

theorem scanOffset_eq_some_iff (l : List String) (tags : Tags) (z : Int) :
    scanOffset l tags = Except.ok (some z) ↔
      ∃ l1 k l2, l = l1 ++ k :: l2 ∧
        (∀ x ∈ l1, tags x = none ∨ ∃ v, tags x = some v ∧ parse_offset v = Except.ok none) ∧
        ∃ v, tags k = some v ∧ parse_offset v = Except.ok (some z) := by
  induction l with
  | nil =>
    constructor
    · intro h
      injection h with h
      cases h
    · rintro ⟨l1, k, l2, hl, -, -⟩
      cases l1 with
      | nil => simp at hl
      | cons a l1 => simp at hl
  | cons k0 ks ih =>
    cases htk : tags k0 with
    | none =>
      simp only [scanOffset_cons, htk]
      rw [ih]
      constructor
      · rintro ⟨l1, k, l2, hl, hnone, hex⟩
        refine ⟨k0 :: l1, k, l2, by rw [List.cons_append, hl], ?_, hex⟩
        intro x hx
        rcases List.mem_cons.mp hx with h | h
        · rw [h]
          exact Or.inl htk
        · exact hnone x h
      · rintro ⟨l1, k, l2, hl, hnone, v2, hk, hpz⟩
        cases l1 with
        | nil =>
          rw [List.nil_append] at hl
          injection hl with h1 h2
          rw [← h1, htk] at hk
          cases hk
        | cons a l1 =>
          rw [List.cons_append] at hl
          injection hl with h1 h2
          exact ⟨l1, k, l2, h2, fun x hx => hnone x (List.mem_cons_of_mem a hx), v2, hk, hpz⟩
    | some v =>
      cases hpv : parse_offset v with
      | error e =>
        simp only [scanOffset_cons, htk, hpv]
        constructor
        · intro h
          exact Except.noConfusion h
        · rintro ⟨l1, k, l2, hl, hnone, v2, hk, hpz⟩
          exfalso
          cases l1 with
          | nil =>
            rw [List.nil_append] at hl
            injection hl with h1 h2
            rw [← h1, htk] at hk
            injection hk with hk
            rw [← hk, hpv] at hpz
            exact Except.noConfusion hpz
          | cons a l1 =>
            rw [List.cons_append] at hl
            injection hl with h1 h2
            rcases hnone k0 (h1 ▸ List.mem_cons_self a l1) with hn | ⟨v3, hv3, hp3⟩
            · rw [htk] at hn
              cases hn
            · rw [htk] at hv3
              injection hv3 with hv3
              rw [← hv3, hpv] at hp3
              exact Except.noConfusion hp3
      | ok w =>
        cases w with
        | some z0 =>
          simp only [scanOffset_cons, htk, hpv]
          constructor
          · intro h
            exact ⟨[], k0, ks, rfl, fun x hx => absurd hx (List.not_mem_nil x), v, htk,
              hpv.trans h⟩
          · rintro ⟨l1, k, l2, hl, hnone, v2, hk, hpz⟩
            cases l1 with
            | nil =>
              rw [List.nil_append] at hl
              injection hl with h1 h2
              rw [← h1, htk] at hk
              injection hk with hk
              rw [← hk, hpv] at hpz
              exact hpz
            | cons a l1 =>
              rw [List.cons_append] at hl
              injection hl with h1 h2
              exfalso
              rcases hnone k0 (h1 ▸ List.mem_cons_self a l1) with hn | ⟨v3, hv3, hp3⟩
              · rw [htk] at hn
                cases hn
              · rw [htk] at hv3
                injection hv3 with hv3
                rw [← hv3, hpv] at hp3
                injection hp3 with hp3
                cases hp3
        | none =>
          simp only [scanOffset_cons, htk, hpv]
          rw [ih]
          constructor
          · rintro ⟨l1, k, l2, hl, hnone, hex⟩
            refine ⟨k0 :: l1, k, l2, by rw [List.cons_append, hl], ?_, hex⟩
            intro x hx
            rcases List.mem_cons.mp hx with h | h
            · rw [h]
              exact Or.inr ⟨v, htk, hpv⟩
            · exact hnone x h
          · rintro ⟨l1, k, l2, hl, hnone, v2, hk, hpz⟩
            cases l1 with
            | nil =>
              rw [List.nil_append] at hl
              injection hl with h1 h2
              exfalso
              rw [← h1, htk] at hk
              injection hk with hk
              rw [← hk, hpv] at hpz
              injection hpz with hpz
              cases hpz
            | cons a l1 =>
              rw [List.cons_append] at hl
              injection hl with h1 h2
              exact ⟨l1, k, l2, h2, fun x hx => hnone x (List.mem_cons_of_mem a hx), v2, hk, hpz⟩

theorem processBatch_cons (mktime : DateTime → Int) (e : FileEnv) (es : List FileEnv) :
    processBatch mktime (e :: es) =
      (match processOne mktime e with
       | Except.error u => Except.error u
       | Except.ok r =>
         match processBatch mktime es with
         | Except.error u => Except.error u
         | Except.ok rs => Except.ok (r :: rs)) := rfl

/-- Claim C5 (corrected): the offset parser trims whitespace and then strips
leading and trailing (not embedded) NUL characters; an empty result yields
absent, any failure of the component pipeline (non-numeric component, empty
hours) yields absent without raising, and the only inputs on which an
exception escapes are those whose parsed components overflow the
999999999-day timedelta bound. -/
theorem c5_strip_and_failure (s : PyStr) :
    (stripNulls (stripWs s) = [] → parse_offset s = Except.ok none) ∧
    (offsetComponents s = none → parse_offset s = Except.ok none) ∧
    (parse_offset s = Except.error () ↔
      ∃ sg h m, offsetComponents s = some (sg, h, m) ∧
        tdOverflow (sg * h * 3600 + sg * m * 60) = true) := by
  refine ⟨?_, ?_, ?_⟩
  · intro h
    have hoc : offsetComponents s = none := by
      unfold offsetComponents
      by_cases hs : s = []
      · rw [if_pos hs]
      · rw [if_neg hs, h]
        rfl
    simp only [parse_offset, hoc]
  · intro h
    simp only [parse_offset, h]
  · cases hoc : offsetComponents s with
    | none =>
      simp only [parse_offset, hoc]
      constructor
      · intro h
        exact Except.noConfusion h
      · rintro ⟨sg, h2, m, hc, -⟩
        cases hc
    | some trip =>
      obtain ⟨sg, h2, m⟩ := trip
      simp only [parse_offset, hoc]
      by_cases ht : tdOverflow (sg * h2 * 3600 + sg * m * 60) = true
      · rw [if_pos ht]
        constructor
        · intro _
          exact ⟨sg, h2, m, rfl, ht⟩
        · intro _
          rfl
      · rw [if_neg ht]
        constructor
        · intro h
          exfalso
          split at h
          · exact Except.noConfusion h
          · exact Except.noConfusion h
        · rintro ⟨sg2, h3, m2, hc, hov⟩
          injection hc with hc
          cases hc
          exact absurd hov ht

/-- Claim C5 witness: a whitespace-and-NUL-only string is absent. -/
theorem c5_strip_and_failure_witness :
    parse_offset (" \x00".toList) = Except.ok none :=
  (c5_strip_and_failure (" \x00".toList)).1 rfl

/-- Claim C5 counterexample: an embedded NUL is NOT stripped (the same string
with the NUL removed parses), and a huge hours value raises an uncaught
overflow rather than yielding absent. -/
theorem c5_counterexample_nul_overflow :
    parse_offset ("+0\x009".toList) = Except.ok none ∧
    parse_offset ("+09".toList) = Except.ok (some 32400) ∧
    parse_offset ("+99999999999".toList) = Except.error () :=
  ⟨rfl, rfl, rfl⟩

/-- Claim C6 (corrected): for every well-formed offset string (optional
sign, integer hours, optional colon-separated integer minutes) whose total
magnitude is under 24 hours, the parser returns the fixed offset of
`sign * hours` hours and `sign * minutes` minutes (in seconds). -/
theorem c6_wellformed_offsets (sgn : Option Char) (hs : PyStr) (ms : Option PyStr)
    (hsgn : sgn = none ∨ sgn = some '+' ∨ sgn = some '-')
    (hhs : hs ≠ []) (hdh : ∀ c ∈ hs, c.isDigit = true)
    (hms : ∀ m, ms = some m → m ≠ [] ∧ ∀ c ∈ m, c.isDigit = true)
    (hrange : digitsVal hs * 3600 + msVal ms * 60 < 86400) :
    parse_offset (mkOffsetStr sgn hs ms) =
      Except.ok (some (sgnVal sgn * ((digitsVal hs * 3600 + msVal ms * 60 : Nat) : Int))) := by
  simp only [parse_offset, offsetComponents_wellformed sgn hs ms hsgn hhs hdh hms]
  have htot : sgnVal sgn * (digitsVal hs : Int) * 3600 + sgnVal sgn * (msVal ms : Int) * 60
      = sgnVal sgn * ((digitsVal hs * 3600 + msVal ms * 60 : Nat) : Int) := by
    push_cast
    ring
  rw [htot]
  have hT0 : (0 : Int) ≤ ((digitsVal hs * 3600 + msVal ms * 60 : Nat) : Int) :=
    Int.natCast_nonneg _
  have hT1 : ((digitsVal hs * 3600 + msVal ms * 60 : Nat) : Int) < 86400 := by
    exact_mod_cast hrange
  have hsgn2 : sgnVal sgn = 1 ∨ sgnVal sgn = -1 := by
    rcases hsgn with h | h | h <;> subst h <;> simp [sgnVal]
  rcases hsgn2 with h1 | h1 <;> rw [h1]
  · rw [one_mul]
    rw [if_neg (by simp only [tdOverflow, Bool.or_eq_true, decide_eq_true_eq]; omega)]
    rw [if_neg (by simp only [Bool.or_eq_true, decide_eq_true_eq]; omega)]
  · rw [neg_one_mul]
    rw [if_neg (by simp only [tdOverflow, Bool.or_eq_true, decide_eq_true_eq]; omega)]
    rw [if_neg (by simp only [Bool.or_eq_true, decide_eq_true_eq]; omega)]

/-- Claim C6 witness: the parser yields +9 hours for the string +09:00. -/
theorem c6_wellformed_offsets_witness :
    parse_offset ("+09:00".toList) = Except.ok (some 32400) := by
  have h := c6_wellformed_offsets (some '+') ("09".toList) (some ("00".toList))
    (Or.inr (Or.inl rfl)) (by decide) (by decide)
    (fun m hm => by
      injection hm with hm
      rw [← hm]
      exact ⟨by decide, by decide⟩)
    (by decide)
  exact h

/-- Claim C6 counterexample: the well-formed string +25 is rejected by the
timezone range check (offsets must be under 24 hours), so the parser yields
absent instead of the +25-hour offset the claim requires. -/
theorem c6_counterexample_range :
    parse_offset ("+25".toList) = Except.ok none ∧
      ¬ parse_offset ("+25".toList) = Except.ok (some (25 * 3600)) := by
  refine ⟨rfl, ?_⟩
  intro h
  rw [show parse_offset ("+25".toList) = Except.ok none from rfl] at h
  injection h with h
  cases h

/-- Claim C10 (confirmed): an offset string with more than one colon after
sign stripping parses exactly as the string truncated to its first two
colon-separated components; everything after the second component is
silently ignored, whatever it contains. -/
theorem c10_extra_components_ignored (sgn : Option Char) (hs m rest : PyStr)
    (hsgn : sgn = none ∨ sgn = some '+' ∨ sgn = some '-')
    (hhs : hs ≠ []) (hdh : ∀ c ∈ hs, c.isDigit = true)
    (hm1 : m ≠ []) (hm2 : ∀ c ∈ m, c.isDigit = true) :
    parse_offset (mkOffsetStr sgn hs (some (m ++ ':' :: rest))) =
      parse_offset (mkOffsetStr sgn hs (some m)) := by
  have h1 := offsetComponents_extra sgn hs m rest hsgn hhs hdh hm1 hm2
  have h2 := offsetComponents_wellformed sgn hs (some m) hsgn hhs hdh
    (fun m2 hm => by
      injection hm with hm
      rw [← hm]
      exact ⟨hm1, hm2⟩)
  unfold parse_offset
  rw [h1, h2]
  rfl

/-- Claim C10 witness: +09:00:30 parses identically to +09:00, namely to
the +9-hour offset. -/
theorem c10_extra_components_ignored_witness :
    parse_offset ("+09:00:30".toList) = parse_offset ("+09:00".toList) ∧
      parse_offset ("+09:00".toList) = Except.ok (some 32400) := by
  constructor
  · exact c10_extra_components_ignored (some '+') ("09".toList) ("00".toList) ("30".toList)
      (Or.inr (Or.inl rfl)) (by decide) (by decide) (by decide) (by decide)
  · rfl

/-- Claim C7 (confirmed): the dedicated-offset scan over the fixed ordered
key list yields an offset exactly when some key is present with a parsing
value and every earlier key is absent or present with a value that parses
to absent; in particular a present-but-unparseable value does not stop the
scan, and when no key parses no offset is produced by the scan. -/
theorem c7_offset_scan (tags : Tags) :
    (∀ z : Int, scanOffset offsetCandidates tags = Except.ok (some z) ↔
      ∃ l1 k l2, offsetCandidates = l1 ++ k :: l2 ∧
        (∀ x ∈ l1, tags x = none ∨
          ∃ v, tags x = some v ∧ parse_offset v = Except.ok none) ∧
        ∃ v, tags k = some v ∧ parse_offset v = Except.ok (some z)) ∧
    ((∀ k ∈ offsetCandidates, ∀ v, tags k = some v →
        ∀ z : Int, ¬ parse_offset v = Except.ok (some z)) →
      ∀ z : Int, ¬ scanOffset offsetCandidates tags = Except.ok (some z)) := by
  constructor
  · intro z
    exact scanOffset_eq_some_iff offsetCandidates tags z
  · intro h z hz
    rw [scanOffset_eq_some_iff] at hz
    obtain ⟨l1, k, l2, hl, -, v, hk, hpz⟩ := hz
    have hkmem : k ∈ offsetCandidates := by
      rw [hl]
      exact List.mem_append_right l1 (List.mem_cons_self k l2)
    exact h k hkmem v hk z hpz

/-- Claim C7 witness: with the original-offset key unparseable and the
digitized-offset key holding +05:00, the scan yields +5 hours. -/
theorem c7_offset_scan_witness :
    scanOffset offsetCandidates exTagsOffsets = Except.ok (some 18000) := by
  refine ((c7_offset_scan exTagsOffsets).1 18000).mpr
    ⟨["EXIF:OffsetTimeOriginal"], "EXIF:OffsetTimeDigitized", ["EXIF:OffsetTime"], rfl, ?_,
      "+05:00".toList, rfl, rfl⟩
  intro x hx
  rw [List.mem_singleton] at hx
  rw [hx]
  exact Or.inr ⟨"abc".toList, rfl, rfl⟩

/-- Claim C2 (confirmed): the resolver scans the fixed ordered date-key list
and the first key present supplies the date string (characterised by the
prefix decomposition); when no date key is present the resolver returns
absent; and when the primary original-date key is present it alone supplies
the date string, whatever the digitized key holds. -/
theorem c2_date_priority (mktime : DateTime → Int) (tags : Tags) :
    ((∀ k ∈ dateCandidates, tags k = none) →
      get_timestamp_from_metadata mktime tags = Except.ok none) ∧
    (∀ v, tags "EXIF:DateTimeOriginal" = some v →
      scanDate dateCandidates tags = some v) ∧
    (∀ ds, scanDate dateCandidates tags = some ds ↔
      ∃ l1 k l2, dateCandidates = l1 ++ k :: l2 ∧ (∀ x ∈ l1, tags x = none) ∧
        tags k = some ds) := by
  refine ⟨?_, ?_, ?_⟩
  · intro h
    unfold get_timestamp_from_metadata
    rw [scanDate_none dateCandidates tags h]
  · intro v hv
    rw [show dateCandidates = "EXIF:DateTimeOriginal" ::
        ["EXIF:DateTimeDigitized", "QuickTime:CreationDate", "QuickTime:CreateDate"] from rfl,
      scanDate_cons, hv]
  · intro ds
    exact scanDate_eq_some_iff dateCandidates tags ds

/-- Claim C2 witness: with both the original and the digitized date present,
the original date string is chosen. -/
theorem c2_date_priority_witness :
    scanDate dateCandidates exTagsBothDates = some ("2023:05:01 10:15:30".toList) :=
  (c2_date_priority epochUTC exTagsBothDates).2.1 ("2023:05:01 10:15:30".toList) rfl

/-- Claim C1 (confirmed): with a chosen date string whose first 19
characters parse, the resolver combines the naive date-time (1) with a
successfully scanned dedicated offset, else (2) with a parsing trailing
substring beyond position 19, and otherwise (3) — including when the
trailing substring fails to parse — interprets it with the machine-local
conversion. -/
theorem c1_offset_precedence (mktime : DateTime → Int) (tags : Tags) (ds : PyStr)
    (dt : DateTime) (hds : scanDate dateCandidates tags = some ds)
    (hdt : strptime (List.take 19 ds) = some dt) :
    (∀ z : Int, scanOffset offsetCandidates tags = Except.ok (some z) →
      get_timestamp_from_metadata mktime tags = Except.ok (some (epochUTC dt - z))) ∧
    (∀ z : Int, scanOffset offsetCandidates tags = Except.ok none → 19 < ds.length →
      parse_offset (List.drop 19 ds) = Except.ok (some z) →
      get_timestamp_from_metadata mktime tags = Except.ok (some (epochUTC dt - z))) ∧
    (scanOffset offsetCandidates tags = Except.ok none →
      (ds.length ≤ 19 ∨ parse_offset (List.drop 19 ds) = Except.ok none) →
      get_timestamp_from_metadata mktime tags = Except.ok (some (mktime dt))) := by
  have hne : ¬ (ds = []) := by
    intro he
    rw [he] at hdt
    exact Option.noConfusion hdt
  refine ⟨?_, ?_, ?_⟩
  · intro z hz
    simp only [get_timestamp_from_metadata, hds]
    rw [if_neg hne, hz, hdt]
  · intro z hz hlen hpz
    simp only [get_timestamp_from_metadata, hds]
    rw [if_neg hne, hz, hdt]
    simp only []
    rw [if_pos hlen, hpz]
  · intro hz hcase
    simp only [get_timestamp_from_metadata, hds]
    rw [if_neg hne, hz, hdt]
    simp only []
    rcases hcase with hlen | hpo
    · rw [if_neg (by omega : ¬ (19 < ds.length))]
    · by_cases hl : 19 < ds.length
      · rw [if_pos hl, hpo]
      · rw [if_neg hl]

/-- Claim C1 witness: a date string with an embedded +09:00 suffix and no
dedicated offset key resolves through precedence case (2). -/
theorem c1_offset_precedence_witness :
    get_timestamp_from_metadata epochUTC exTagsEmbedded =
      Except.ok (some 1682903730) := by
  have h := (c1_offset_precedence epochUTC exTagsEmbedded
      ("2023:05:01 10:15:30+09:00".toList) ⟨2023, 5, 1, 10, 15, 30⟩ rfl rfl).2.1
    32400 rfl (by decide) rfl
  exact h

/-- Claim C3 counterexample: the 17-character date string with one-digit
month and day parses successfully (Python strptime accepts one- or
two-digit fields), so the resolver yields a timestamp, not absent as the
claim requires for strings shorter than 19 characters. -/
theorem c3_counterexample_short_parses :
    ("2023:5:1 10:15:30".toList).length = 17 ∧
      get_timestamp_from_metadata epochUTC exTagsShort =
        Except.ok (some 1682936130) :=
  ⟨rfl, rfl⟩

/-- Claim C3 (corrected): the resolver parses the first min(19, length)
characters of the chosen date string with Python strptime's flexible
matching (year exactly four digits; month, day, hour, minute and second one
or two digits; calendar-validated), and — provided the dedicated-offset
scan did not raise — it returns absent exactly when that parse fails, with
no exception escaping. -/
theorem c3_flexible_strptime (mktime : DateTime → Int) (tags : Tags) (ds : PyStr)
    (tzd : Option Int) (hds : scanDate dateCandidates tags = some ds)
    (hoff : scanOffset offsetCandidates tags = Except.ok tzd) :
    (get_timestamp_from_metadata mktime tags = Except.ok none ↔
      strptime (List.take 19 ds) = none) := by
  simp only [get_timestamp_from_metadata, hds]
  by_cases hne : ds = []
  · rw [if_pos hne, hne]
    constructor
    · intro _
      rfl
    · intro _
      rfl
  · rw [if_neg hne, hoff]
    simp only []
    cases hst : strptime (List.take 19 ds) with
    | none => exact ⟨fun _ => rfl, fun _ => rfl⟩
    | some dt =>
      cases tzd with
      | some z =>
        exact ⟨fun h => Option.noConfusion (Except.ok.inj h), fun h => Option.noConfusion h⟩
      | none =>
        constructor
        · intro h
          exfalso
          have h2 : (if 19 < ds.length then
              (match parse_offset (List.drop 19 ds) with
               | Except.error e => Except.error e
               | Except.ok (some z) => Except.ok (some (epochUTC dt - z))
               | Except.ok none => Except.ok (some (mktime dt)))
            else Except.ok (some (mktime dt))) = Except.ok none := h
          by_cases hl : 19 < ds.length
          · rw [if_pos hl] at h2
            cases hpo : parse_offset (List.drop 19 ds) with
            | error e =>
              rw [hpo] at h2
              exact Except.noConfusion h2
            | ok w =>
              rw [hpo] at h2
              cases w with
              | some z => exact Option.noConfusion (Except.ok.inj h2)
              | none => exact Option.noConfusion (Except.ok.inj h2)
          · rw [if_neg hl] at h2
            exact Option.noConfusion (Except.ok.inj h2)
        · intro h
          exact Option.noConfusion h

/-- Claim C3 witness: the unparseable date string not-a-date makes the
resolver return absent without an exception. -/
theorem c3_flexible_strptime_witness :
    get_timestamp_from_metadata epochUTC exTagsBadDate = Except.ok none :=
  (c3_flexible_strptime epochUTC exTagsBadDate ("not-a-date".toList) none rfl rfl).mpr rfl

/-- Claim C9 (confirmed): when the resolver succeeds with the timestamp 0
(the Unix epoch, falsy as a Python float), the orchestrator takes the
no-valid-dates branch: the creation-time setter is not invoked and the file
is reported as having no valid EXIF dates. -/
theorem c9_zero_timestamp_absent (mktime : DateTime → Int) (env : FileEnv) (tags : Tags)
    (hcp : env.copyOk = true) (hmd : env.metadata = Except.ok (some tags))
    (hts : get_timestamp_from_metadata mktime tags = Except.ok (some 0)) :
    processOne mktime env = Except.ok ⟨Outcome.noValidDates, false⟩ := by
  unfold processOne
  rw [hcp, if_pos rfl]
  simp only [hmd, hts]
  rfl

/-- Claim C9 witness: a tag map resolving exactly to the epoch is treated
as having no valid dates and the setter is not called. -/
theorem c9_zero_timestamp_absent_witness :
    processOne epochUTC exEnvEpoch = Except.ok ⟨Outcome.noValidDates, false⟩ :=
  c9_zero_timestamp_absent epochUTC exEnvEpoch exTagsEpoch rfl rfl rfl

/-- Claim C4 counterexample: a copy failure on the first file aborts the
whole batch (shutil.copy2 runs before the try block), so the second file is
never processed — contradicting the claim that an error at the Copying
state is caught and the orchestrator advances. -/
theorem c4_counterexample_copy_aborts :
    processBatch epochUTC [exEnvBadCopy, exEnvEpoch] = Except.error () := rfl

/-- Claim C4 (corrected): for every batch in which no copy step raises, an
exception at MetadataLookup, timestamp resolution or time setting is caught
per file and the orchestrator advances: the batch completes with one
outcome per file. -/
theorem c4_caught_after_copy (mktime : DateTime → Int) (envs : List FileEnv)
    (h : ∀ e ∈ envs, e.copyOk = true) :
    ∃ rs, processBatch mktime envs = Except.ok rs ∧ rs.length = envs.length := by
  induction envs with
  | nil => exact ⟨[], rfl, rfl⟩
  | cons e es ih =>
    obtain ⟨rs, hrs, hlen⟩ := ih (fun x hx => h x (List.mem_cons_of_mem e hx))
    have hcp := h e (List.mem_cons_self e es)
    have hone : ∃ r, processOne mktime e = Except.ok r := by
      unfold processOne
      rw [hcp, if_pos rfl]
      exact ⟨_, rfl⟩
    obtain ⟨r, hr⟩ := hone
    refine ⟨r :: rs, ?_, by simp [hlen]⟩
    rw [processBatch_cons, hr, hrs]

/-- Claim C4 witness: a two-file batch whose first metadata read raises is
still fully processed once copying succeeds. -/
theorem c4_caught_after_copy_witness :
    ∃ rs, processBatch epochUTC [exEnvMetaRaise, exEnvEpoch] = Except.ok rs ∧
      rs.length = 2 := by
  have h := c4_caught_after_copy epochUTC [exEnvMetaRaise, exEnvEpoch] ?hc
  · exact h
  case hc =>
    intro e he
    rcases List.mem_cons.mp he with h1 | h1
    · rw [h1]
      rfl
    · rcases List.mem_cons.mp h1 with h2 | h2
      · rw [h2]
        rfl
      · exact absurd h2 (List.not_mem_nil e)

/-- Claim C8 (confirmed): an immediate directory entry is kept by the file
enumerator if and only if it is a regular file whose extension, compared
case-insensitively, lies in the fixed set of image extensions. -/
theorem c8_enumerator_filter (entries : List DirEntry) (e : DirEntry) :
    e ∈ filesToProcess entries ↔
      e ∈ entries ∧ e.isFile = true ∧
        pyLower (pathSuffix e.name) ∈ INPUT_EXTENSIONS := by
  unfold filesToProcess
  rw [List.mem_filter]
  unfold includeFile
  rw [Bool.and_eq_true, decide_eq_true_eq]

/-- Claim C8 witness: an uppercase .JPG file is enumerated while a .txt
file beside it is not. -/
theorem c8_enumerator_filter_witness :
    (⟨"photo.JPG".toList, true⟩ : DirEntry) ∈
      filesToProcess [⟨"photo.JPG".toList, true⟩, ⟨"notes.txt".toList, true⟩] ∧
    ¬ (⟨"notes.txt".toList, true⟩ : DirEntry) ∈
      filesToProcess [⟨"photo.JPG".toList, true⟩, ⟨"notes.txt".toList, true⟩] := by
  constructor
  · exact (c8_enumerator_filter _ _).mpr
      ⟨List.mem_cons_self _ _, rfl, by decide⟩
  · intro h
    have h2 := ((c8_enumerator_filter _ _).mp h).2.2
    exact absurd h2 (by decide)
